import Mathlib

/-!
# Verification of the `coop` cooperative-wait core

Shallow embedding of `cooppump.h` (pump registry and `Guard` nesting
counter), `coopdelay.h` (fixed delays and conditional waits) and
`reentryguard.h` (reentrancy guard), with theorems settling the spec
claims about them.

The program's global mutable state (`CoopPump::_pump`,
`CoopPump::Guard::waitDepth` and the external millisecond clock read by
`Tick::now()`) is made explicit as a state record threaded through every
operation.  The pump callback is arbitrary user code: it may mutate its
private environment and, since real time passes while it runs, advance
the clock by some amount.  The busy-wait loops of `coopdelay.h` need not
terminate, so they are given a fuel parameter; `none` means the loop
was still running when the fuel ran out.
-/

namespace Coop

/-- The pump callback type (`CoopPump::pump_t`, a
`std::function<void(const u32, const bool)>` over private captured
state): given `(now, light)` and its private environment, it returns
the amount of clock time its execution consumed together with its new
environment. -/
def PumpFn (σ : Type) : Type := Nat → Bool → σ → Nat × σ

/-- The explicit global state: the current value of the external
monotonic millisecond clock (`Tick::now()`), the registered pump
callback slot (`CoopPump::_pump`, `none` = `nullptr`), the guard
nesting counter (`CoopPump::Guard::waitDepth`, a C++ `int`) and the
pump callback's private environment. -/
structure CoopState (σ : Type) where
  time : Nat
  pump : Option (PumpFn σ)
  waitDepth : Int
  env : σ

namespace CoopPump

variable {σ : Type}

/-- Model of `CoopPump::setPump(fn)`: replaces the callback slot. -/
def setPump (fn : Option (PumpFn σ)) (s : CoopState σ) : CoopState σ :=
  { s with pump := fn }

/-- Model of `CoopPump::reset()`: `_pump = nullptr`. -/
def reset (s : CoopState σ) : CoopState σ :=
  { s with pump := none }

/-- Model of `CoopPump::pump(now, light)`: if a callback is registered, invoke
it synchronously with `(now, light)`; otherwise a no-op.  The clock
advances by whatever time the callback consumed. -/
def pump (now : Nat) (light : Bool) (s : CoopState σ) : CoopState σ :=
  match s.pump with
  | some f =>
      let r := f now light s.env
      { s with time := s.time + r.1, env := r.2 }
  | none => s

/-- Model of the `CoopPump::Guard` constructor: `++waitDepth`. -/
def guardEnter (s : CoopState σ) : CoopState σ :=
  { s with waitDepth := s.waitDepth + 1 }

/-- Model of the `CoopPump::Guard` destructor: `--waitDepth`. -/
def guardExit (s : CoopState σ) : CoopState σ :=
  { s with waitDepth := s.waitDepth - 1 }

/-- Model of `CoopPump::Guard::inWait()`: `waitDepth > 0`. -/
def inWait (s : CoopState σ) : Bool :=
  decide (0 < s.waitDepth)

end CoopPump

/-- Modelled from the spec: `TickITimer` (from `time/Tick.h`, not part
of this repository's sources) is a one-shot millisecond countdown
timer, constructed from the current clock value and a duration, that
reports expired exactly when the elapsed time since construction has
reached the duration. -/
structure TickITimer where
  start : Nat
  durationMs : Nat

/-- Modelled from the spec: `isExpired()` at clock value `now`. -/
def TickITimer.isExpired (t : TickITimer) (now : Nat) : Bool :=
  decide (t.start + t.durationMs ≤ now)

namespace CoopDelay

variable {σ : Type}

open CoopPump

/-- One non-terminating iteration of any `coopdelay.h` busy-wait loop:
`CoopPump::pump(Tick::now(), true)`. -/
def pumpStep (s : CoopState σ) : CoopState σ :=
  pump s.time true s

/-- The loop of `CoopDelay::delay_ms`:
`while (!timer.isExpired()) { CoopPump::pump(Tick::now(), true); }`,
with fuel bounding the number of expiry checks. -/
def delayLoop (t : TickITimer) : Nat → CoopState σ → Option (CoopState σ)
  | 0, _ => none
  | fuel + 1, s =>
      if t.isExpired s.time then some s
      else delayLoop t fuel (pumpStep s)

/-- Model of `CoopDelay::delay_ms` (both the compile-time `delay_ms<DurationMs>`
and the runtime `delay_ms(durationMs)` form have this same body): build
a millisecond timer for the duration, open a `CoopPump::Guard`, run the
pump loop until the timer expires, close the guard. -/
def delay_ms (durationMs : Nat) (fuel : Nat) (s : CoopState σ) :
    Option (CoopState σ) :=
  let t : TickITimer := ⟨s.time, durationMs⟩
  (delayLoop t fuel (guardEnter s)).map guardExit

/-- The loop of `CoopDelay::wait_until`:
`while (!ready()) { if (t.isExpired()) return false; pump(now, true); }`
followed by `return true`.  The predicate reads the pump environment. -/
def waitLoop (ready : σ → Bool) (t : TickITimer) :
    Nat → CoopState σ → Option (Bool × CoopState σ)
  | 0, _ => none
  | fuel + 1, s =>
      if ready s.env then some (true, s)
      else if t.isExpired s.time then some (false, s)
      else waitLoop ready t fuel (pumpStep s)

/-- Model of `CoopDelay::wait_until` (both the compile-time
`wait_until<TimeoutMs>` and the runtime `wait_until(ready, timeoutMs)`
form have this same body): build a timeout timer, open a
`CoopPump::Guard`, run the predicate/expiry/pump loop, close the guard
(the guard is RAII, so it also closes on the early `return false`
path). -/
def wait_until (ready : σ → Bool) (timeoutMs : Nat) (fuel : Nat)
    (s : CoopState σ) : Option (Bool × CoopState σ) :=
  let t : TickITimer := ⟨s.time, timeoutMs⟩
  (waitLoop ready t fuel (guardEnter s)).map (fun r => (r.1, guardExit r.2))

end CoopDelay

/-!
## Abstract nesting model for `CoopPump::Guard`

A pump callback is arbitrary user code and may itself invoke delay/wait
operations, nesting guards.  `WProg` is the shape of such an execution:
a wait operation (`wait p`) brackets its body in a guard
(`++waitDepth` on entry, `--waitDepth` on exit — the destructor runs on
every exit path, including the early `return false` of `wait_until`),
and its body is a sequence of pump-callback invocations (`pumpCall`),
each of which may itself contain nested waits.
-/

/-- Shape of a (possibly nested) execution of wait operations and
pump-callback invocations. -/
inductive WProg where
  | pumpCall : WProg
  | skip : WProg
  | seq : WProg → WProg → WProg
  | wait : WProg → WProg

/-- Run a wait program.  `d` is the value of
`CoopPump::Guard::waitDepth` (a C++ `int`), `n` is the ghost count of
currently-active wait scopes.  Returns the final depth, the final
scope count, and the `(waitDepth, active-scopes)` pairs observed at
each pump-callback invocation. -/
def WProg.run : WProg → Int → Nat → Int × Nat × List (Int × Nat)
  | .pumpCall, d, n => (d, n, [(d, n)])
  | .skip, d, n => (d, n, [])
  | .seq p q, d, n =>
      let r1 := p.run d n
      let r2 := q.run r1.1 r1.2.1
      (r2.1, r2.2.1, r1.2.2 ++ r2.2.2)
  | .wait p, d, n =>
      let r := p.run (d + 1) (n + 1)
      (r.1 - 1, r.2.1 - 1, r.2.2)

/-!
## `ReentryGuard` (reentryguard.h)
-/

/-- Model of `ReentryGuard`: a per-call-site recursion depth counter
(`int depth_{0}`). -/
structure ReentryGuard where
  depth_ : Int

namespace ReentryGuard

/-- A freshly constructed guard: `depth_` defaults to `0`. -/
def init : ReentryGuard := ⟨0⟩

/-- Model of `ReentryGuard::Scope`: the RAII handle.  Its only datum is the
`const bool reentered_` captured at construction. -/
structure Scope where
  reentered_ : Bool

/-- The `Scope` constructor: `reentered_(++g_.depth_ > 1)` — it
increments the guard's depth and captures whether the incremented depth
exceeded 1.  Returns the new scope together with the updated guard. -/
def Scope.enter (g : ReentryGuard) : Scope × ReentryGuard :=
  (⟨decide (1 < g.depth_ + 1)⟩, ⟨g.depth_ + 1⟩)

/-- The `Scope` destructor: `--g_.depth_`. -/
def Scope.leave (g : ReentryGuard) : ReentryGuard :=
  ⟨g.depth_ - 1⟩

/-- Model of `Scope::is_reentered()`: returns the captured `reentered_` flag. -/
def Scope.is_reentered (sc : Scope) : Bool := sc.reentered_

/-- One constructor (`true`) or destructor (`false`) event on the
guard. -/
def applyEvent (g : ReentryGuard) (e : Bool) : ReentryGuard :=
  if e then (Scope.enter g).2 else Scope.leave g

/-- Run a sequence of scope construction/destruction events on a
guard. -/
def runScopes : List Bool → ReentryGuard → ReentryGuard
  | [], g => g
  | e :: es, g => runScopes es (g.applyEvent e)

end ReentryGuard

/-!
## Concrete simulation scenario

The spec's concrete test: a pump that increments a counter, on a
simulated clock that advances 1 ms per pump call.
-/

/-- A pump callback that increments a counter and consumes 1 ms of
clock time per invocation. -/
def tickPump : PumpFn Nat := fun _ _ c => (1, c + 1)

/-- Initial state for the simulation: clock at 0, `tickPump`
registered, no wait active, counter 0. -/
def simStart : CoopState Nat := ⟨0, some tickPump, 0, 0⟩

/-!
## Helper lemmas
-/

namespace CoopPump

variable {σ : Type}

lemma guardExit_guardEnter (s : CoopState σ) : guardExit (guardEnter s) = s := by
  simp [guardEnter, guardExit]

lemma pump_time_env (now : Nat) (light : Bool) (s : CoopState σ) :
    (pump now light s).waitDepth = s.waitDepth ∧
    (pump now light s).pump = s.pump := by
  cases h : s.pump <;> simp [pump, h]

end CoopPump

namespace CoopDelay

variable {σ : Type}

open CoopPump

lemma pumpStep_waitDepth (s : CoopState σ) :
    (pumpStep s).waitDepth = s.waitDepth :=
  (pump_time_env s.time true s).1

lemma pumpStep_iterate_waitDepth (n : Nat) (s : CoopState σ) :
    ((pumpStep^[n]) s).waitDepth = s.waitDepth := by
  induction n generalizing s with
  | zero => rfl
  | succ n ih =>
      rw [Function.iterate_succ_apply, ih, pumpStep_waitDepth]

lemma delayLoop_eq_some (t : TickITimer) :
    ∀ (fuel : Nat) (s s' : CoopState σ), delayLoop t fuel s = some s' →
      ∃ n, n < fuel ∧
        (∀ i, i < n → t.isExpired ((pumpStep^[i]) s).time = false) ∧
        t.isExpired ((pumpStep^[n]) s).time = true ∧
        s' = (pumpStep^[n]) s := by
  intro fuel
  induction fuel with
  | zero => intro s s' h; simp [delayLoop] at h
  | succ fuel ih =>
      intro s s' h
      by_cases he : t.isExpired s.time
      · refine ⟨0, Nat.succ_pos _, by omega, by simpa using he, ?_⟩
        simp [delayLoop, he] at h
        simp [h.symm]
      · simp only [delayLoop, he, Bool.false_eq_true, if_false] at h
        obtain ⟨n, hn, hall, hexp, hs'⟩ := ih (pumpStep s) s' h
        refine ⟨n + 1, by omega, ?_, ?_, ?_⟩
        · intro i hi
          match i with
          | 0 => simpa using he
          | j + 1 =>
              rw [Function.iterate_succ_apply]
              exact hall j (by omega)
        · rwa [Function.iterate_succ_apply]
        · rwa [Function.iterate_succ_apply]

lemma waitLoop_eq_some (ready : σ → Bool) (t : TickITimer) :
    ∀ (fuel : Nat) (s : CoopState σ) (r : Bool × CoopState σ),
      waitLoop ready t fuel s = some r →
      ∃ n, n < fuel ∧
        (∀ i, i < n → ready ((pumpStep^[i]) s).env = false ∧
          t.isExpired ((pumpStep^[i]) s).time = false) ∧
        r.2 = (pumpStep^[n]) s ∧
        ((r.1 = true ∧ ready ((pumpStep^[n]) s).env = true) ∨
         (r.1 = false ∧ ready ((pumpStep^[n]) s).env = false ∧
           t.isExpired ((pumpStep^[n]) s).time = true)) := by
  intro fuel
  induction fuel with
  | zero => intro s r h; simp [waitLoop] at h
  | succ fuel ih =>
      intro s r h
      by_cases hr : ready s.env
      · simp [waitLoop, hr] at h
        refine ⟨0, Nat.succ_pos _, by omega, ?_, Or.inl ⟨?_, by simpa using hr⟩⟩
        · simp [← h]
        · simp [← h]
      · by_cases he : t.isExpired s.time
        · simp [waitLoop, hr, he] at h
          refine ⟨0, Nat.succ_pos _, by omega, ?_,
            Or.inr ⟨?_, by simpa using hr, by simpa using he⟩⟩
          · simp [← h]
          · simp [← h]
        · simp only [waitLoop, hr, Bool.false_eq_true, if_false, he] at h
          obtain ⟨n, hn, hall, hs', hres⟩ := ih (pumpStep s) r h
          refine ⟨n + 1, by omega, ?_, ?_, ?_⟩
          · intro i hi
            match i with
            | 0 => exact ⟨by simpa using hr, by simpa using he⟩
            | j + 1 =>
                rw [Function.iterate_succ_apply]
                exact hall j (by omega)
          · rwa [Function.iterate_succ_apply]
          · rwa [Function.iterate_succ_apply]

lemma waitLoop_never_true (ready : σ → Bool) (hnever : ∀ e, ready e = false)
    (t : TickITimer) :
    ∀ (n : Nat) (s : CoopState σ), t.isExpired ((pumpStep^[n]) s).time = true →
      ∃ s'', waitLoop ready t (n + 1) s = some (false, s'') := by
  intro n
  induction n with
  | zero =>
      intro s hexp
      have he : t.isExpired s.time = true := by simpa using hexp
      exact ⟨s, by simp [waitLoop, hnever, he]⟩
  | succ n ih =>
      intro s hexp
      by_cases he : t.isExpired s.time
      · exact ⟨s, by simp [waitLoop, hnever, he]⟩
      · rw [Function.iterate_succ_apply] at hexp
        obtain ⟨s'', hs⟩ := ih (pumpStep s) hexp
        refine ⟨s'', ?_⟩
        simpa [waitLoop, hnever, he] using hs

end CoopDelay

namespace WProg

lemma run_state (p : WProg) : ∀ (d : Int) (n : Nat),
    (p.run d n).1 = d ∧ (p.run d n).2.1 = n := by
  induction p with
  | pumpCall => intro d n; exact ⟨rfl, rfl⟩
  | skip => intro d n; exact ⟨rfl, rfl⟩
  | seq p q ihp ihq =>
      intro d n
      simp only [run]
      rw [(ihp d n).1, (ihp d n).2]
      exact ⟨(ihq d n).1, (ihq d n).2⟩
  | wait p ih =>
      intro d n
      simp only [run]
      rw [(ih (d + 1) (n + 1)).1, (ih (d + 1) (n + 1)).2]
      omega

lemma run_obs (p : WProg) : ∀ (d : Int) (n : Nat) (x : Int) (m : Nat),
    (x, m) ∈ (p.run d n).2.2 → d ≤ x ∧ (d = (n : Int) → x = (m : Int)) := by
  induction p with
  | pumpCall =>
      intro d n x m hm
      simp only [run, List.mem_singleton, Prod.mk.injEq] at hm
      obtain ⟨rfl, rfl⟩ := hm
      exact ⟨le_refl _, fun h => h⟩
  | skip => intro d n x m hm; simp [run] at hm
  | seq p q ihp ihq =>
      intro d n x m hm
      simp only [run, List.mem_append] at hm
      rcases hm with h | h
      · exact ihp d n x m h
      · rw [(run_state p d n).1, (run_state p d n).2] at h
        exact ihq d n x m h
  | wait p ih =>
      intro d n x m hm
      simp only [run] at hm
      obtain ⟨h1, h2⟩ := ih (d + 1) (n + 1) x m hm
      exact ⟨by omega, fun hd => h2 (by omega)⟩

end WProg

namespace ReentryGuard

lemma runScopes_depth (es : List Bool) : ∀ g : ReentryGuard,
    (runScopes es g).depth_
      = g.depth_ + (es.count true : Int) - (es.count false : Int) := by
  induction es with
  | nil => intro g; simp [runScopes]
  | cons e es ih =>
      intro g
      cases e <;>
        simp [runScopes, applyEvent, Scope.enter, Scope.leave, ih,
          List.count_cons] <;>
        omega

end ReentryGuard

/-!
## Claim theorems
-/

open CoopPump CoopDelay

/-- C1: for every positive duration `D`, `delay_ms` (the compile-time
and the runtime form share this body) returns only after the
millisecond timer initialized to `D` reports expired: whenever the
wait completes, there is an iteration count `n` such that the first
`n` expiry checks were false, each such non-terminating iteration
performed exactly one `pump(now, light=true)` call (the `n`-fold
iterate of `pumpStep`), the `(n+1)`-st expiry check is true, and the
returned state is exactly the guard-closed `n`-th iterate. -/
theorem delay_ms_returns_after_expiry {σ : Type} (D fuel : Nat) (_hD : 0 < D)
    (s s' : CoopState σ) (h : delay_ms D fuel s = some s') :
    ∃ n, n < fuel ∧
      (∀ i, i < n → TickITimer.isExpired ⟨s.time, D⟩
        ((pumpStep^[i]) (guardEnter s)).time = false) ∧
      TickITimer.isExpired ⟨s.time, D⟩
        ((pumpStep^[n]) (guardEnter s)).time = true ∧
      s' = guardExit ((pumpStep^[n]) (guardEnter s)) := by
  simp only [delay_ms, Option.map_eq_some'] at h
  obtain ⟨s0, hs0, hexit⟩ := h
  obtain ⟨n, hn, hall, hexp, hs⟩ := delayLoop_eq_some _ fuel _ _ hs0
  exact ⟨n, hn, hall, hexp, by rw [← hexit, hs]⟩

/-- Witness for C1 at the concrete simulation state: a 2 ms delay with
the 1 ms/pump clock completes within fuel 5. -/
theorem delay_ms_returns_after_expiry_witness :
    ∃ n, n < 5 ∧
      (∀ i, i < n → TickITimer.isExpired ⟨simStart.time, 2⟩
        ((pumpStep^[i]) (guardEnter simStart)).time = false) ∧
      TickITimer.isExpired ⟨simStart.time, 2⟩
        ((pumpStep^[n]) (guardEnter simStart)).time = true ∧
      (⟨2, some tickPump, 0, 2⟩ : CoopState Nat)
        = guardExit ((pumpStep^[n]) (guardEnter simStart)) :=
  delay_ms_returns_after_expiry 2 5 (by decide) simStart
    ⟨2, some tickPump, 0, 2⟩ rfl

/-- C2: for every predicate and positive timeout, `wait_until`
(compile-time timeout form; the runtime form shares the body) stops at
some iteration `n`: every earlier iteration saw a false predicate and
an unexpired timer and performed exactly one `pump(now, true)` call;
the call returns `true` exactly when the predicate is true at
iteration `n`, and returns `false` exactly when the predicate is false
there and the timeout timer reports expired. -/
theorem wait_until_spec {σ : Type} (ready : σ → Bool) (T fuel : Nat)
    (_hT : 0 < T) (s s' : CoopState σ) (b : Bool)
    (h : wait_until ready T fuel s = some (b, s')) :
    ∃ n, n < fuel ∧
      (∀ i, i < n → ready ((pumpStep^[i]) (guardEnter s)).env = false ∧
        TickITimer.isExpired ⟨s.time, T⟩
          ((pumpStep^[i]) (guardEnter s)).time = false) ∧
      s' = guardExit ((pumpStep^[n]) (guardEnter s)) ∧
      ((b = true ∧ ready ((pumpStep^[n]) (guardEnter s)).env = true) ∨
       (b = false ∧ ready ((pumpStep^[n]) (guardEnter s)).env = false ∧
        TickITimer.isExpired ⟨s.time, T⟩
          ((pumpStep^[n]) (guardEnter s)).time = true)) := by
  simp only [wait_until, Option.map_eq_some'] at h
  obtain ⟨r, hr, heq⟩ := h
  have hb : r.1 = b := congrArg Prod.fst heq
  have hs' : guardExit r.2 = s' := congrArg Prod.snd heq
  obtain ⟨n, hn, hall, hs, hres⟩ := waitLoop_eq_some ready _ fuel _ r hr
  refine ⟨n, hn, hall, by rw [← hs', hs], ?_⟩
  rcases hres with ⟨h1, h2⟩ | ⟨h1, h2, h3⟩
  · exact Or.inl ⟨hb ▸ h1, h2⟩
  · exact Or.inr ⟨hb ▸ h1, h2, h3⟩

/-- Witness for C2: waiting for the counter to reach 2 with timeout 5
on the simulation state succeeds after two pump calls. -/
theorem wait_until_spec_witness :
    ∃ n, n < 9 ∧
      (∀ i, i < n →
        (fun c : Nat => decide (2 ≤ c)) ((pumpStep^[i]) (guardEnter simStart)).env
          = false ∧
        TickITimer.isExpired ⟨simStart.time, 5⟩
          ((pumpStep^[i]) (guardEnter simStart)).time = false) ∧
      (⟨2, some tickPump, 0, 2⟩ : CoopState Nat)
        = guardExit ((pumpStep^[n]) (guardEnter simStart)) ∧
      (((true : Bool) = true ∧
        (fun c : Nat => decide (2 ≤ c))
          ((pumpStep^[n]) (guardEnter simStart)).env = true) ∨
       ((true : Bool) = false ∧
        (fun c : Nat => decide (2 ≤ c))
          ((pumpStep^[n]) (guardEnter simStart)).env = false ∧
        TickITimer.isExpired ⟨simStart.time, 5⟩
          ((pumpStep^[n]) (guardEnter simStart)).time = true)) :=
  wait_until_spec (fun c : Nat => decide (2 ≤ c)) 5 9 (by decide) simStart
    ⟨2, some tickPump, 0, 2⟩ true rfl

/-- C3: for a predicate that never evaluates true, `wait_until`
terminates with `false` once the timeout timer reports expired: if the
timer is expired by the `n`-th loop iterate, then fuel `n + 1`
suffices for the call to return `false` (it never loops beyond the
first expired check). -/
theorem wait_until_never_true_times_out {σ : Type} (ready : σ → Bool)
    (hnever : ∀ e, ready e = false) (T n : Nat) (s : CoopState σ)
    (hexp : TickITimer.isExpired ⟨s.time, T⟩
      ((pumpStep^[n]) (guardEnter s)).time = true) :
    ∃ s', wait_until ready T (n + 1) s = some (false, s') := by
  obtain ⟨s'', hs⟩ := waitLoop_never_true ready hnever _ n (guardEnter s) hexp
  exact ⟨guardExit s'', by simp [wait_until, hs]⟩

/-- Witness for C3: the always-false predicate with timeout 2 on the
simulation state times out within three checks. -/
theorem wait_until_never_true_times_out_witness :
    ∃ s', wait_until (fun _ : Nat => false) 2 (2 + 1) simStart
      = some (false, s') :=
  wait_until_never_true_times_out (fun _ => false) (fun _ => rfl) 2 2
    simStart rfl

/-- C6: with the registered counter-incrementing pump and the simulated
clock advancing 1 ms per pump call, a fixed 10 ms delay performs
exactly 10 pump invocations (final counter 10, final clock 10, guard
closed) and has not returned before the 10th pump call (with only 10
expiry checks of fuel the loop is still running). -/
theorem delay_ms_ten_pump_calls :
    ((delay_ms 10 11 simStart).map fun s => (s.time, s.env, s.waitDepth))
      = some (10, 10, 0) ∧
    ((delay_ms 10 10 simStart).map fun s => s.env) = none :=
  ⟨rfl, rfl⟩

/-- C7: the runtime-timeout `wait_until` with timeout 0 returns true
exactly when the predicate is already true at its first evaluation and
false otherwise, immediately in both cases: the returned state is the
entry state unchanged, so no pump call is made. -/
theorem wait_until_zero_timeout {σ : Type} (ready : σ → Bool) (fuel : Nat)
    (s : CoopState σ) :
    wait_until ready 0 (fuel + 1) s = some (ready s.env, s) := by
  have he : TickITimer.isExpired ⟨s.time, 0⟩ s.time = true := by
    simp [TickITimer.isExpired]
  by_cases hr : ready s.env
  · simp [wait_until, waitLoop, guardEnter, guardExit, hr]
  · simp [wait_until, waitLoop, guardEnter, guardExit, hr, he,
      Bool.not_eq_true _ ▸ hr]

/-- C8: the pump registry contract: `pump(now, light)` invokes a
registered callback synchronously with exactly `(now, light)` on the
current environment; with no callback registered it is a no-op;
`reset()` coincides with `setPump(absent)`; and `setPump` replaces any
previously registered callback (last registration wins). -/
theorem cooppump_registry_contract (σ : Type) :
    (∀ (f : PumpFn σ) (now : Nat) (light : Bool) (s : CoopState σ),
      s.pump = some f →
        pump now light s =
          { s with time := s.time + (f now light s.env).1,
                   env := (f now light s.env).2 }) ∧
    (∀ (now : Nat) (light : Bool) (s : CoopState σ),
      s.pump = none → pump now light s = s) ∧
    (∀ s : CoopState σ, reset s = setPump none s) ∧
    (∀ (f1 f2 : Option (PumpFn σ)) (s : CoopState σ),
      setPump f2 (setPump f1 s) = setPump f2 s) := by
  refine ⟨?_, ?_, fun s => rfl, fun f1 f2 s => rfl⟩
  · intro f now light s hf
    simp [pump, hf]
  · intro now light s hf
    simp [pump, hf]

/-- Witness for C8: invoking the pump on the simulation state calls
`tickPump` with exactly the given arguments. -/
theorem cooppump_registry_contract_witness :
    pump 5 true simStart =
      { simStart with
          time := simStart.time + (tickPump 5 true simStart.env).1,
          env := (tickPump 5 true simStart.env).2 } :=
  (cooppump_registry_contract Nat).1 tickPump 5 true simStart rfl

/-- C9: if the predicate is true at its first evaluation, `wait_until`
(either form) returns `true` with the entry state unchanged — zero
pump calls — and does so for every timeout value `T`, so the timer's
expiry is never consulted: the loop checks the predicate before both
the expiry check and the pump call. -/
theorem wait_until_ready_first_no_pump {σ : Type} (ready : σ → Bool)
    (T fuel : Nat) (s : CoopState σ) (h : ready s.env = true) :
    wait_until ready T (fuel + 1) s = some (true, s) := by
  simp [wait_until, waitLoop, guardEnter, guardExit, h]

/-- Witness for C9: an immediately-true predicate returns instantly on
the simulation state. -/
theorem wait_until_ready_first_no_pump_witness :
    wait_until (fun _ : Nat => true) 7 (0 + 1) simStart
      = some (true, simStart) :=
  wait_until_ready_first_no_pump (fun _ => true) 7 0 simStart rfl

/-- C10: the timeout is only observed after a false predicate
evaluation: whenever `wait_until` completes, either it returns `true`
with the predicate true on the exit state, or it returns `false` with
the predicate false there and the timer expired — so a true predicate
wins over an already-expired timeout at the same iteration. -/
theorem wait_until_true_pred_overrides_timeout {σ : Type} (ready : σ → Bool)
    (T fuel : Nat) (s s' : CoopState σ) (b : Bool)
    (h : wait_until ready T fuel s = some (b, s')) :
    (b = true ∧ ready s'.env = true) ∨
    (b = false ∧ ready s'.env = false ∧
      TickITimer.isExpired ⟨s.time, T⟩ s'.time = true) := by
  simp only [wait_until, Option.map_eq_some'] at h
  obtain ⟨r, hr, heq⟩ := h
  have hb : r.1 = b := congrArg Prod.fst heq
  have hs' : guardExit r.2 = s' := congrArg Prod.snd heq
  obtain ⟨n, -, -, hs, hres⟩ := waitLoop_eq_some ready _ fuel _ r hr
  have henv : s'.env = ((pumpStep^[n]) (guardEnter s)).env := by
    rw [← hs', hs]; rfl
  have htime : s'.time = ((pumpStep^[n]) (guardEnter s)).time := by
    rw [← hs', hs]; rfl
  rcases hres with ⟨h1, h2⟩ | ⟨h1, h2, h3⟩
  · exact Or.inl ⟨hb ▸ h1, by rw [henv]; exact h2⟩
  · exact Or.inr ⟨hb ▸ h1, by rw [henv]; exact h2,
      by rw [htime]; exact h3⟩

/-- Witness for C10: with timeout 0 the timer is already expired at
entry, yet an immediately-true predicate still yields `true`. -/
theorem wait_until_true_pred_overrides_timeout_witness :
    ((true : Bool) = true ∧ (fun _ : Nat => true) simStart.env = true) ∨
    ((true : Bool) = false ∧ (fun _ : Nat => true) simStart.env = false ∧
      TickITimer.isExpired ⟨simStart.time, 0⟩ simStart.time = true) :=
  wait_until_true_pred_overrides_timeout (fun _ => true) 0 1 simStart
    simStart true rfl

/-- C4: guard-nesting invariant.  For any (possibly nested) execution
shape of wait operations, starting with `waitDepth` equal to the number
of active wait scopes: the counter (and scope count) after every
operation equals its value before entry; at every pump-callback
invocation the counter is at least the entry value (so always `≥ 0`
from a quiescent start) and equals the number of currently-active wait
scopes; inside any wait — in particular in every pump callback invoked
from it — the counter is strictly positive, so `inWait()` is true; the
concrete `wait_until` restores `waitDepth` on every exit, including the
early `return false` path (the RAII guard); and after the outermost
wait returns from a quiescent start the counter is `0`, so `inWait()`
is false. -/
theorem guard_nesting_invariant (p : WProg) (d : Int) (n : Nat)
    (hd : d = (n : Int)) :
    ((p.run d n).1 = d ∧ (p.run d n).2.1 = n) ∧
    (∀ x m, (x, m) ∈ (p.run d n).2.2 → d ≤ x ∧ x = (m : Int)) ∧
    (∀ q : WProg, 0 ≤ d → ∀ x m,
      (x, m) ∈ ((WProg.wait q).run d n).2.2 → 0 < x) ∧
    (∀ (σ : Type) (ready : σ → Bool) (T fuel : Nat) (s : CoopState σ)
        (b : Bool) (s' : CoopState σ),
      wait_until ready T fuel s = some (b, s') →
        s'.waitDepth = s.waitDepth) ∧
    (∀ q : WProg, ((WProg.wait q).run 0 0).1 = 0) := by
  refine ⟨WProg.run_state p d n, ?_, ?_, ?_, ?_⟩
  · intro x m hm
    obtain ⟨h1, h2⟩ := WProg.run_obs p d n x m hm
    exact ⟨h1, h2 hd⟩
  · intro q hd0 x m hm
    simp only [WProg.run] at hm
    have := (WProg.run_obs q (d + 1) (n + 1) x m hm).1
    omega
  · intro σ ready T fuel s b s' h
    simp only [wait_until, Option.map_eq_some'] at h
    obtain ⟨r, hr, heq⟩ := h
    have hs' : guardExit r.2 = s' := congrArg Prod.snd heq
    obtain ⟨k, -, -, hs, -⟩ := waitLoop_eq_some ready _ fuel _ r hr
    have hdep : r.2.waitDepth = s.waitDepth + 1 := by
      rw [hs, pumpStep_iterate_waitDepth]; rfl
    rw [← hs']
    simp [guardExit, hdep]
  · intro q
    have := (WProg.run_state q (0 + 1) (0 + 1)).1
    simp only [WProg.run]
    omega

/-- Witness for C4 at a concrete nesting shape: an outer wait whose
pump callback performs a nested wait, from a quiescent start. -/
theorem guard_nesting_invariant_witness :
    (((WProg.wait (WProg.seq WProg.pumpCall
        (WProg.wait WProg.pumpCall))).run 0 0).1 = 0 ∧
      ((WProg.wait (WProg.seq WProg.pumpCall
        (WProg.wait WProg.pumpCall))).run 0 0).2.1 = 0) ∧
    (∀ x m, (x, m) ∈ ((WProg.wait (WProg.seq WProg.pumpCall
        (WProg.wait WProg.pumpCall))).run 0 0).2.2 →
      (0 : Int) ≤ x ∧ x = (m : Int)) ∧
    (∀ q : WProg, (0 : Int) ≤ 0 → ∀ x m,
      (x, m) ∈ ((WProg.wait q).run 0 0).2.2 → 0 < x) ∧
    (∀ (σ : Type) (ready : σ → Bool) (T fuel : Nat) (s : CoopState σ)
        (b : Bool) (s' : CoopState σ),
      wait_until ready T fuel s = some (b, s') →
        s'.waitDepth = s.waitDepth) ∧
    (∀ q : WProg, ((WProg.wait q).run 0 0).1 = 0) :=
  guard_nesting_invariant
    (WProg.wait (WProg.seq WProg.pumpCall (WProg.wait WProg.pumpCall)))
    0 0 (by decide)

/-- C5: `ReentryGuard` invariant.  A `Scope` constructed on a guard at
depth 0 (the first scope, or the first after all previous scopes have
been destroyed) reports `is_reentered() == false`; a `Scope`
constructed while a previous scope is still alive (depth `≥ 1`)
reports `true`; any balanced sequence of constructions and
destructions returns the depth to its initial value (so to 0 after all
scopes die); and the captured flag is exactly the condition observed
at construction time — the `Scope` carries no other state, so
`is_reentered()` never changes during its lifetime. -/
theorem reentry_guard_invariant :
    (∀ g : ReentryGuard, g.depth_ = 0 →
      (ReentryGuard.Scope.enter g).1.is_reentered = false) ∧
    (∀ g : ReentryGuard, 1 ≤ g.depth_ →
      (ReentryGuard.Scope.enter g).1.is_reentered = true) ∧
    (∀ es : List Bool, es.count true = es.count false →
      ∀ g : ReentryGuard,
        (ReentryGuard.runScopes es g).depth_ = g.depth_) ∧
    (∀ g : ReentryGuard,
      (ReentryGuard.Scope.enter g).1.is_reentered
        = decide (0 < g.depth_)) := by
  refine ⟨?_, ?_, ?_, ?_⟩
  · intro g hg
    simp [ReentryGuard.Scope.enter, ReentryGuard.Scope.is_reentered, hg]
  · intro g hg
    simp only [ReentryGuard.Scope.enter, ReentryGuard.Scope.is_reentered,
      decide_eq_true_eq]
    omega
  · intro es h g
    rw [ReentryGuard.runScopes_depth, h]
    ring
  · intro g
    simp only [ReentryGuard.Scope.enter, ReentryGuard.Scope.is_reentered,
      decide_eq_decide]
    omega

/-- Witness for C5: the spec's concrete scenario — a first scope at
depth 0 reports false, a scope on a still-alive guard reports true, and
a balanced enter/enter/leave/leave sequence restores depth 0. -/
theorem reentry_guard_invariant_witness :
    (ReentryGuard.Scope.enter ⟨0⟩).1.is_reentered = false ∧
    (ReentryGuard.Scope.enter ⟨1⟩).1.is_reentered = true ∧
    (ReentryGuard.runScopes [true, true, false, false] ⟨0⟩).depth_
      = (⟨0⟩ : ReentryGuard).depth_ :=
  ⟨reentry_guard_invariant.1 ⟨0⟩ rfl,
   reentry_guard_invariant.2.1 ⟨1⟩ (by decide),
   reentry_guard_invariant.2.2.1 [true, true, false, false] (by decide) ⟨0⟩⟩

end Coop
